import Mathlib

/-!
Verification of the slack-standup report pipeline (src/src/lib.rs).

The Rust source is shallowly embedded: every pure computation of the
pipeline (lookback window, incident-block fold, issue line rendering,
BTreeMap grouping, group-block fold, delivery payload construction) is
translated to an executable Lean definition, and the claims of the
specification are settled as theorems about those definitions.

HTTP effects are modelled by their observable data: each fetch is an
`Except` carrying either the decoded records or an error, and delivery
is the list of POST attempts the run performs.
-/

namespace Standup

/-- Lexicographic order on character lists: the order `BTreeMap<String, _>`
keys are kept in (byte-wise lexicographic comparison of UTF-8 strings
coincides with code-point lexicographic comparison). -/
def charListLt : List Char → List Char → Bool
  | [], [] => false
  | [], _ :: _ => true
  | _ :: _, [] => false
  | a :: as, b :: bs =>
    if a < b then true
    else if b < a then false
    else charListLt as bs

/-- The `Ord` on `String` used by the grouping `BTreeMap`. -/
def strLt (a b : String) : Bool := charListLt a.data b.data

/-- Rust's `Vec::<String>::join(sep)`. -/
def joinSep (sep : String) : List String → String
  | [] => ""
  | [a] => a
  | a :: b :: rest => a ++ sep ++ joinSep sep (b :: rest)

/-- Concatenation of a list of strings, the shape a left fold that only
appends takes. -/
def concatAll : List String → String
  | [] => ""
  | a :: rest => a ++ concatAll rest

/-- chrono `Weekday`, as consumed by `Local::now().weekday()`. -/
inductive Weekday
  | mon | tue | wed | thu | fri | sat | sun
  deriving DecidableEq, Repr

/-- `lib.rs` lines 123-127: `if Local::now().weekday() == Weekday::Mon { 3 } else { 1 }`. -/
def lookback_days (today : Weekday) : Int :=
  if today = Weekday.mon then 3 else 1

/-- `Incident` (lib.rs lines 66-72): fields decoded from the incident
service response. -/
structure Incident where
  incident_number : Nat
  title : String
  status : String
  html_url : String
  deriving DecidableEq, Repr

/-- The record goji's `Issue` exposes to this program: `key`, and the
`summary()`, `status().name`, `assignee().name` accessors together with
the `permalink(&jira)` string (spec section 3: the issue record exposes
key, summary, permalink, status name, assignee name). -/
structure Issue where
  key : String
  summary : Option String
  status : Option String
  assignee : Option String
  permalink : String
  deriving DecidableEq, Repr

/-- `STATUS_EMOJI` (lib.rs lines 33-41): the fixed status-name → glyph map. -/
def STATUS_EMOJI (status : String) : Option String :=
  if status = "In Progress" then some "👩🏻‍💻"
  else if status = "In Review" then some "👩🏼‍🔬"
  else if status = "Closed" then some "🎉"
  else none

/-- Display status of an issue (lib.rs lines 183-186):
`issue.status().map(|status| status.name).unwrap_or_else(|| "Unknown Status".into())`. -/
def displayStatus (issue : Issue) : String :=
  issue.status.getD "Unknown Status"

/-- Decorated status label (lib.rs lines 187-191): the `BTreeMap` key
`format!("{} *{}*", STATUS_EMOJI.get(&status).unwrap_or_else(|| &&":shrug:"), status)`. -/
def decoratedLabel (status : String) : String :=
  (STATUS_EMOJI status).getD ":shrug:" ++ " *" ++ status ++ "*"

/-- `owner` (lib.rs lines 87-92). -/
def owner (issue : Issue) (status : String) : Option String :=
  if status = "Closed" then none
  else some ("@" ++ issue.assignee.getD "nobody")

/-- `issue_display` (lib.rs lines 94-102):
`format!("<{}|{}> {}{}", permalink, key, summary | "no summary", owner | "")`. -/
def issue_display (issue : Issue) (status : String) : String :=
  "<" ++ issue.permalink ++ "|" ++ issue.key ++ "> "
    ++ issue.summary.getD "no summary"
    ++ (owner issue status).getD ""

/-- The line rendered for an issue inside the grouping fold
(lib.rs line 192: `issue_display(issue, &jira, &status)` with `status`
the display status). -/
def lineOf (issue : Issue) : String :=
  issue_display issue (displayStatus issue)

/-- One incident line (lib.rs lines 147-152):
`format!("<{}|#{}> {} ({})\n", html_url, incident_number, title, status)`. -/
def incidentLine (i : Incident) : String :=
  "<" ++ i.html_url ++ "|#" ++ toString i.incident_number ++ "> "
    ++ i.title ++ " (" ++ i.status ++ ")\n"

/-- The incident block (lib.rs lines 144-155): fold starting from the
fixed Weather Report header, appending one line per incident. -/
def incidentsResponse (incidents : List Incident) : String :=
  incidents.foldl (fun result incident => result ++ incidentLine incident)
    "⛅ *Weather Report*\n"

/-- Insertion into the grouping map (lib.rs lines 187-192):
`acc.entry(label).or_insert(Vec::new()).push(line)` on a `BTreeMap`,
modelled on an association list kept strictly sorted by key the way the
`BTreeMap` keeps its keys. -/
def insertGrouped (key line : String) :
    List (String × List String) → List (String × List String)
  | [] => [(key, [line])]
  | (k, lines) :: rest =>
    if key = k then (k, lines ++ [line]) :: rest
    else if strLt key k then (key, [line]) :: (k, lines) :: rest
    else (k, lines) :: insertGrouped key line rest

/-- The grouping fold (lib.rs lines 182-194): insert every issue's
rendered line under its decorated status label. -/
def grouped (issues : List Issue) : List (String × List String) :=
  issues.foldl
    (fun acc issue => insertGrouped (decoratedLabel (displayStatus issue)) (lineOf issue) acc)
    []

/-- The issue block (lib.rs lines 197-205): fold over the grouped map in
key order, emitting the label line then the member lines joined with
newlines, each group terminated by a newline. -/
def renderGroups (groups : List (String × List String)) : String :=
  groups.foldl
    (fun result g =>
      result ++ g.1 ++ "\n" ++ joinSep "\n" g.2 ++ "\n")
    ""

/-- The lines of one group's rendered block: the label line followed by
the member lines. -/
def blockOf (g : String × List String) : String :=
  g.1 ++ "\n" ++ joinSep "\n" g.2 ++ "\n"

/-- The member lines stored under a key of the grouping map, the empty
list when the key is absent (`BTreeMap` lookup, restricted to the lists
this program stores, which are never empty). -/
def groupLines (key : String) : List (String × List String) → List String
  | [] => []
  | (k, lines) :: rest => if k = key then lines else groupLines key rest

/-- The (label, line) pairs a grouping map holds. -/
def groupPairs (groups : List (String × List String)) : List (String × String) :=
  groups.flatMap fun g => g.2.map fun line => (g.1, line)

/-- The `BTreeMap` representation invariant: entries strictly sorted by
key. -/
def SortedKeys (groups : List (String × List String)) : Prop :=
  List.Pairwise (fun a b => strLt a.1 b.1 = true) groups

/-- Failure modes of the incident fetch that the spec distinguishes:
a transport error, a non-success HTTP status, or a body that does not
decode as the expected shape. All are swallowed by `unwrap_or_default`
(lib.rs line 143). -/
inductive FetchError
  | transport
  | nonSuccessStatus
  | malformedBody
  deriving DecidableEq, Repr

/-- `unwrap_or_default()` on a fetched `Result` whose success type
defaults to the empty vector (lib.rs lines 143, 168, 177). -/
def unwrapOrDefault (r : Except ε (List α)) : List α :=
  match r with
  | .ok v => v
  | .error _ => []

/-- The observable outcomes of the three fetches of one run: the
incident query and the two issue-tracker queries, each independently
either decoded records or an error. -/
structure FetchResults where
  incidents : Except FetchError (List Incident)
  closed : Except String (List Issue)
  inFlight : Except String (List Issue)

/-- The JSON object POSTed to the response URL (lib.rs line 210):
a single field `text`. -/
structure SlackPayload where
  text : String
  deriving DecidableEq, Repr

/-- Observable effects of one `debrief` run: the POST attempts made
(destination URL and payload) and the diagnostics printed. -/
structure RunEffects where
  posts : List (String × SlackPayload)
  logs : List String

/-- `debrief` (lib.rs lines 104-217), over the observable data of the
run: the jira client construction result, the three fetch outcomes and
whether the delivery POST succeeds. Mirrors the source control flow:
client construction failure returns early with an error; each fetch is
collapsed by `unwrap_or_default`; closed issues are extended with the
in-flight issues; the two blocks are joined with a newline and POSTed
once; a delivery failure is only logged. -/
def debrief (jiraClient : Except String Unit) (fetch : FetchResults)
    (deliveryOk : Bool) (slack_url : String) :
    RunEffects × Except String Unit :=
  match jiraClient with
  | .error err => (⟨[], ["fetching debrief info..."]⟩, .error ("jira client err: " ++ err))
  | .ok _ =>
    let incidents_response := incidentsResponse (unwrapOrDefault fetch.incidents)
    let issues := unwrapOrDefault fetch.closed ++ unwrapOrDefault fetch.inFlight
    let jira_response := renderGroups (grouped issues)
    let text := joinSep "\n" [incidents_response, jira_response]
    let logs := ["fetching debrief info..."]
      ++ (if deliveryOk then [] else ["failed to debrief on what shipped"])
      ++ ["debriefed"]
    (⟨[(slack_url, ⟨text⟩)], logs⟩, .ok ())

/-- The gateway handler's observable result (lib.rs lines 74-85) once
config and payload parsing (excluded collaborators per spec section 1)
have produced the response URL: the run's effects, the handler's own
diagnostics, and whether the caller receives a success response. -/
structure GatewayOutput where
  posts : List (String × SlackPayload)
  logs : List String
  callerSeesSuccess : Bool

/-- `gateway!` body (lib.rs lines 74-85): run `debrief`; if it returned
an error print a diagnostic; in either case answer the caller with
`Ok(lando::Response::new(()))`. -/
def gateway (jiraClient : Except String Unit) (fetch : FetchResults)
    (deliveryOk : Bool) (slack_url : String) : GatewayOutput :=
  match debrief jiraClient fetch deliveryOk slack_url with
  | (eff, .error _) => ⟨eff.posts, eff.logs ++ ["err debriefing"], true⟩
  | (eff, .ok _) => ⟨eff.posts, eff.logs, true⟩

/-! Re-parser for the round-trip property: split the rendered issue
block into physical lines; a line opening with the `<permalink|key>`
bracket is an issue line attributed to the most recent label line, every
other non-empty line is a label line. -/

/-- Split a character list at newline characters. -/
def splitNl : List Char → List (List Char)
  | [] => [[]]
  | c :: cs =>
    if c = '\n' then [] :: splitNl cs
    else
      match splitNl cs with
      | [] => [[c]]
      | l :: ls => (c :: l) :: ls

/-- A rendered issue line always opens with the permalink bracket. -/
def isIssueLine (l : String) : Bool := l.data.head? = some '<'

/-- Accumulate (current label, issue line) pairs from the physical lines
of a rendered issue block. -/
def parsePairs : List String → String → List (String × String)
  | [], _ => []
  | l :: rest, cur =>
    if l = "" then parsePairs rest cur
    else if isIssueLine l then (cur, l) :: parsePairs rest cur
    else parsePairs rest l

/-- Re-parse a rendered issue block into its (label, issue line) pairs. -/
def parseBlock (s : String) : List (String × String) :=
  parsePairs ((splitNl s.data).map fun cs => String.mk cs) ""

/-! Concrete records used to witness the hypotheses of the proved
properties, taken from the specification's end-to-end scenario
(section 8). -/

/-- The scenario incident: number 1042, "DB timeout", triggered. -/
def sampleIncident : Incident :=
  ⟨1042, "DB timeout", "triggered", "http://x/1042"⟩

/-- The scenario closed issue CS-1 with no assignee. -/
def closedIssue : Issue :=
  ⟨"CS-1", some "Fix cache", some "Closed", none, "http://j/CS-1"⟩

/-- The scenario in-review issue CS-2 assigned to ana. -/
def reviewIssue : Issue :=
  ⟨"CS-2", some "Add metrics", some "In Review", some "ana", "http://j/CS-2"⟩

/-! ## General lemmas about the embedded operations -/

/-- A left fold that only appends strings is the initial string followed
by the concatenation of the rendered elements. -/
theorem foldl_append_concatAll (f : α → String) (l : List α) (init : String) :
    l.foldl (fun r x => r ++ f x) init = init ++ concatAll (l.map f) := by
  induction l generalizing init with
  | nil => simp [concatAll]
  | cons a t ih =>
    simp only [List.foldl_cons, List.map_cons, concatAll]
    rw [ih, String.append_assoc]

/-! ## C3: lookback window -/

/-- C3: the lookback window used by the pipeline is 3 days when the
current local date is a Monday and 1 day on every other weekday. -/
theorem lookback_monday_rule :
    lookback_days Weekday.mon = 3
    ∧ lookback_days Weekday.tue = 1 ∧ lookback_days Weekday.wed = 1
    ∧ lookback_days Weekday.thu = 1 ∧ lookback_days Weekday.fri = 1
    ∧ lookback_days Weekday.sat = 1 ∧ lookback_days Weekday.sun = 1 := by
  decide

/-! ## C1: issue line and owner annotation -/

/-- C1: a rendered issue line is the permalink bracket, the key, the
summary (falling back to "no summary"), and — appended with no
separator — no owner annotation when the display status is exactly
"Closed", otherwise an owner annotation naming the assignee or
"@nobody" when unassigned. -/
theorem issue_line_owner_rule (issue : Issue) :
    lineOf issue =
      "<" ++ issue.permalink ++ "|" ++ issue.key ++ "> "
        ++ issue.summary.getD "no summary"
        ++ (if displayStatus issue = "Closed" then ""
            else "@" ++ issue.assignee.getD "nobody") := by
  unfold lineOf issue_display owner
  by_cases h : displayStatus issue = "Closed" <;> simp [h]

/-! ## C5: incident block -/

/-- C5: for every incident list the incident block is the fixed Weather
Report header followed by exactly one line per incident in fetch order,
each line being the link bracket, the title and the parenthesised
status; with zero incidents the block is the header alone. -/
theorem incident_block_shape (incidents : List Incident) :
    incidentsResponse incidents =
      "⛅ *Weather Report*\n" ++ concatAll (incidents.map incidentLine)
    ∧ incidentsResponse ([] : List Incident) = "⛅ *Weather Report*\n"
    ∧ ∀ i : Incident, incidentLine i =
        "<" ++ i.html_url ++ "|#" ++ toString i.incident_number ++ "> "
          ++ i.title ++ " (" ++ i.status ++ ")\n" := by
  exact ⟨foldl_append_concatAll incidentLine incidents _, rfl, fun _ => rfl⟩

/-! ## C6: independent degradation of the three fetches -/

/-- C6: an error on any one of the three fetches — any failure mode of
the incident query, or any error on either issue-tracker query —
changes the run exactly as if that one query had returned the empty
sequence, leaving the other two untouched, and the pipeline still
performs its single delivery and finishes without error. -/
theorem fetch_failures_isolated (e : FetchError) (e1 e2 : String)
    (url : String) (dOk : Bool) (inc : Except FetchError (List Incident))
    (cl fl : Except String (List Issue)) :
    debrief (.ok ()) ⟨.error e, cl, fl⟩ dOk url
      = debrief (.ok ()) ⟨.ok [], cl, fl⟩ dOk url
    ∧ debrief (.ok ()) ⟨inc, .error e1, fl⟩ dOk url
      = debrief (.ok ()) ⟨inc, .ok [], fl⟩ dOk url
    ∧ debrief (.ok ()) ⟨inc, cl, .error e2⟩ dOk url
      = debrief (.ok ()) ⟨inc, cl, .ok []⟩ dOk url
    ∧ (debrief (.ok ()) ⟨inc, cl, fl⟩ dOk url).1.posts.length = 1
    ∧ (debrief (.ok ()) ⟨inc, cl, fl⟩ dOk url).2 = .ok () := by
  exact ⟨rfl, rfl, rfl, rfl, rfl⟩

/-! ## C7: delivery -/

/-- C7: whenever the run reaches delivery (the tracker client was
constructed), exactly one POST is attempted, to the URL taken from the
trigger payload, carrying the single-field payload whose text is the
incident block and the issue block joined by one separating newline —
regardless of the fetch outcomes, including all-empty ones. -/
theorem delivery_exactly_once (fetch : FetchResults) (dOk : Bool) (url : String) :
    (debrief (.ok ()) fetch dOk url).1.posts =
      [(url, ⟨incidentsResponse (unwrapOrDefault fetch.incidents) ++ "\n"
        ++ renderGroups (grouped
            (unwrapOrDefault fetch.closed ++ unwrapOrDefault fetch.inFlight))⟩)]
    ∧ (gateway (.ok ()) fetch dOk url).posts
        = (debrief (.ok ()) fetch dOk url).1.posts := by
  exact ⟨rfl, rfl⟩

/-! ## C8: client construction failure and the caller's response -/

/-- C8: a tracker-client construction failure aborts the run with an
error before any POST, so no report is sent; the handler's only account
of it is the diagnostic log line; and for every outcome — construction
failure included, delivery failure included — the triggering caller
receives a success response. -/
theorem client_failure_fatal_caller_sees_success (e : String)
    (jc : Except String Unit) (fetch : FetchResults) (dOk : Bool) (url : String) :
    (debrief (.error e) fetch dOk url).1.posts = []
    ∧ (debrief (.error e) fetch dOk url).2 = .error ("jira client err: " ++ e)
    ∧ (gateway (.error e) fetch dOk url).posts = []
    ∧ (gateway (.error e) fetch dOk url).logs
        = ["fetching debrief info...", "err debriefing"]
    ∧ (gateway jc fetch dOk url).callerSeesSuccess = true := by
  refine ⟨rfl, rfl, rfl, rfl, ?_⟩
  cases jc <;> rfl

/-! ## The key order of the grouping map -/

theorem charListLt_irrefl (a : List Char) : charListLt a a = false := by
  induction a with
  | nil => rfl
  | cons x xs ih => simp [charListLt, ih]

theorem charListLt_trans (a : List Char) :
    ∀ b c, charListLt a b = true → charListLt b c = true →
      charListLt a c = true := by
  induction a with
  | nil =>
    intro b c h1 h2
    cases b with
    | nil => simp [charListLt] at h1
    | cons y ys =>
      cases c with
      | nil => simp [charListLt] at h2
      | cons z zs => simp [charListLt]
  | cons x xs ih =>
    intro b c h1 h2
    cases b with
    | nil => simp [charListLt] at h1
    | cons y ys =>
      cases c with
      | nil => simp [charListLt] at h2
      | cons z zs =>
        simp only [charListLt] at h1 h2 ⊢
        by_cases hxy : x < y
        · by_cases hyz : y < z
          · simp [lt_trans hxy hyz]
          · by_cases hzy : z < y
            · simp [hyz, hzy] at h2
            · have hy : y = z := le_antisymm (not_lt.mp hzy) (not_lt.mp hyz)
              subst hy
              simp [hxy]
        · by_cases hyx : y < x
          · simp [hxy, hyx] at h1
          · have hx : x = y := le_antisymm (not_lt.mp hyx) (not_lt.mp hxy)
            subst hx
            simp only [lt_irrefl, if_false] at h1
            by_cases hxz : x < z
            · simp [hxz]
            · by_cases hzx : z < x
              · simp [hxz, hzx] at h2
              · have hz : x = z := le_antisymm (not_lt.mp hzx) (not_lt.mp hxz)
                subst hz
                simp only [lt_irrefl, if_false] at h2 ⊢
                exact ih ys zs h1 h2

theorem charListLt_trichotomy (a : List Char) :
    ∀ b, charListLt a b = true ∨ a = b ∨ charListLt b a = true := by
  induction a with
  | nil => intro b; cases b <;> simp [charListLt]
  | cons x xs ih =>
    intro b
    cases b with
    | nil => simp [charListLt]
    | cons y ys =>
      rcases lt_trichotomy x y with h | h | h
      · left; simp [charListLt, h]
      · subst h
        rcases ih ys with h2 | h2 | h2
        · left; simp [charListLt, h2]
        · right; left; simp [h2]
        · right; right; simp [charListLt, h2]
      · right; right; simp [charListLt, h, asymm h]

theorem str_eq_of_data (a b : String) (h : a.data = b.data) : a = b := by
  cases a
  cases b
  exact congrArg String.mk h

theorem strLt_trans (a b c : String) (h1 : strLt a b = true)
    (h2 : strLt b c = true) : strLt a c = true :=
  charListLt_trans a.data b.data c.data h1 h2

theorem strLt_total (a b : String) :
    strLt a b = true ∨ a = b ∨ strLt b a = true := by
  rcases charListLt_trichotomy a.data b.data with h | h | h
  · exact Or.inl h
  · exact Or.inr (Or.inl (str_eq_of_data a b h))
  · exact Or.inr (Or.inr h)

theorem strLt_ne (a b : String) (h : strLt a b = true) : a ≠ b := by
  intro he
  subst he
  rw [strLt, charListLt_irrefl] at h
  exact Bool.false_ne_true h

/-! ## Lemmas about the grouping map -/

theorem mem_keys_insertGrouped (k v q : String) :
    ∀ acc, q ∈ (insertGrouped k v acc).map Prod.fst →
      q = k ∨ q ∈ acc.map Prod.fst := by
  intro acc
  induction acc with
  | nil =>
    intro hq
    simp [insertGrouped] at hq
    exact Or.inl hq
  | cons hd tl ih =>
    obtain ⟨k0, vs0⟩ := hd
    intro hq
    simp only [insertGrouped] at hq
    by_cases h1 : k = k0
    · rw [if_pos h1] at hq
      simp only [List.map_cons, List.mem_cons] at hq
      rcases hq with h | h
      · exact Or.inl (h.trans h1.symm)
      · exact Or.inr (by simp [List.mem_cons, h])
    · rw [if_neg h1] at hq
      by_cases h2 : strLt k k0 = true
      · rw [if_pos h2] at hq
        simp only [List.map_cons, List.mem_cons] at hq
        rcases hq with h | h | h
        · exact Or.inl h
        · exact Or.inr (by simp [List.mem_cons, h])
        · exact Or.inr (by simp [List.mem_cons, h])
      · rw [if_neg h2] at hq
        simp only [List.map_cons, List.mem_cons] at hq
        rcases hq with h | h
        · exact Or.inr (by simp [List.mem_cons, h])
        · rcases ih h with h3 | h3
          · exact Or.inl h3
          · exact Or.inr (by simp [List.mem_cons, h3])

theorem sortedKeys_insertGrouped (k v : String) :
    ∀ acc, SortedKeys acc → SortedKeys (insertGrouped k v acc) := by
  intro acc
  induction acc with
  | nil =>
    intro _
    simp [SortedKeys, insertGrouped]
  | cons hd tl ih =>
    obtain ⟨k0, vs0⟩ := hd
    intro hs
    rw [SortedKeys, List.pairwise_cons] at hs
    obtain ⟨hhead, htail⟩ := hs
    simp only [insertGrouped]
    by_cases h1 : k = k0
    · rw [if_pos h1]
      rw [SortedKeys, List.pairwise_cons]
      exact ⟨hhead, htail⟩
    · rw [if_neg h1]
      by_cases h2 : strLt k k0 = true
      · rw [if_pos h2]
        rw [SortedKeys, List.pairwise_cons]
        refine ⟨?_, ?_⟩
        · intro g hg
          rcases List.mem_cons.mp hg with h | h
          · rw [h]
            exact h2
          · exact strLt_trans _ _ _ h2 (hhead g h)
        · rw [SortedKeys, List.pairwise_cons] at *
          exact ⟨hhead, htail⟩
      · rw [if_neg h2]
        rw [SortedKeys, List.pairwise_cons]
        refine ⟨?_, ih htail⟩
        intro g hg
        rcases mem_keys_insertGrouped k v g.1 tl
            (List.mem_map_of_mem Prod.fst hg) with h3 | h3
        · rw [h3]
          rcases strLt_total k0 k with h4 | h4 | h4
          · exact h4
          · exact absurd h4.symm h1
          · exact absurd h4 h2
        · rcases List.mem_map.mp h3 with ⟨g', hg', he⟩
          rw [← he]
          exact hhead g' hg'

theorem groupLines_eq_nil (q : String) :
    ∀ acc, (∀ g ∈ acc, g.1 ≠ q) → groupLines q acc = [] := by
  intro acc
  induction acc with
  | nil => intro _; rfl
  | cons hd tl ih =>
    obtain ⟨k0, vs0⟩ := hd
    intro h
    simp only [groupLines]
    rw [if_neg (h (k0, vs0) (List.mem_cons_self _ _)), ih]
    intro g hg
    exact h g (List.mem_cons_of_mem _ hg)

theorem groupLines_insertGrouped (q k v : String) :
    ∀ acc, SortedKeys acc →
      groupLines q (insertGrouped k v acc) =
        groupLines q acc ++ (if k = q then [v] else []) := by
  intro acc
  induction acc with
  | nil =>
    intro _
    simp only [insertGrouped, groupLines]
    by_cases h : k = q <;> simp [h]
  | cons hd tl ih =>
    obtain ⟨k0, vs0⟩ := hd
    intro hs
    rw [SortedKeys, List.pairwise_cons] at hs
    obtain ⟨hhead, htail⟩ := hs
    simp only [insertGrouped]
    by_cases h1 : k = k0
    · rw [if_pos h1]
      simp only [groupLines]
      by_cases h2 : k0 = q
      · rw [if_pos h2, if_pos h2, if_pos (h1.trans h2)]
      · rw [if_neg h2, if_neg h2, if_neg (fun he => h2 (h1.symm.trans he))]
        simp
    · rw [if_neg h1]
      by_cases h2 : strLt k k0 = true
      · rw [if_pos h2]
        simp only [groupLines]
        by_cases hq : k = q
        · rw [if_pos hq]
          have hnil : groupLines q ((k0, vs0) :: tl) = [] := by
            refine groupLines_eq_nil q _ ?_
            intro g hg
            rcases List.mem_cons.mp hg with h | h
            · rw [h]
              exact fun he => strLt_ne k k0 h2 (hq.trans he.symm)
            · exact fun he =>
                strLt_ne k g.1 (strLt_trans _ _ _ h2 (hhead g h))
                  (hq.trans he.symm)
          simp only [groupLines] at hnil
          rw [hnil]
          simp [hq]
        · rw [if_neg hq]
          simp [hq]
      · rw [if_neg h2]
        simp only [groupLines]
        by_cases hq0 : k0 = q
        · rw [if_pos hq0, if_pos hq0, if_neg (fun he : k = q => h1 (he.trans hq0.symm))]
          simp
        · rw [if_neg hq0, if_neg hq0]
          exact ih htail

theorem sortedKeys_foldInsert (issues : List Issue) :
    ∀ acc, SortedKeys acc →
      SortedKeys (issues.foldl (fun acc issue =>
        insertGrouped (decoratedLabel (displayStatus issue)) (lineOf issue) acc) acc) := by
  induction issues with
  | nil => intro acc hs; simpa using hs
  | cons i t ih =>
    intro acc hs
    simp only [List.foldl_cons]
    exact ih _ (sortedKeys_insertGrouped _ _ _ hs)

theorem sortedKeys_grouped (issues : List Issue) : SortedKeys (grouped issues) :=
  sortedKeys_foldInsert issues [] List.Pairwise.nil

theorem groupLines_foldInsert (q : String) (issues : List Issue) :
    ∀ acc, SortedKeys acc →
      groupLines q (issues.foldl (fun acc issue =>
          insertGrouped (decoratedLabel (displayStatus issue)) (lineOf issue) acc) acc)
        = groupLines q acc
          ++ (issues.filter fun i => decoratedLabel (displayStatus i) == q).map lineOf := by
  induction issues with
  | nil => intro acc _; simp
  | cons i t ih =>
    intro acc hs
    simp only [List.foldl_cons]
    rw [ih _ (sortedKeys_insertGrouped _ _ _ hs),
        groupLines_insertGrouped q _ _ acc hs]
    by_cases h : decoratedLabel (displayStatus i) = q
    · simp [h, List.filter_cons]
    · simp [h, List.filter_cons]

theorem groupLines_grouped (q : String) (issues : List Issue) :
    groupLines q (grouped issues)
      = (issues.filter fun i => decoratedLabel (displayStatus i) == q).map lineOf := by
  have h := groupLines_foldInsert q issues [] List.Pairwise.nil
  simpa [grouped, groupLines] using h

theorem values_foldInsert (issues : List Issue) :
    ∀ acc, (∀ g ∈ acc, g.2 ≠ []) →
      ∀ g ∈ issues.foldl (fun acc issue =>
          insertGrouped (decoratedLabel (displayStatus issue)) (lineOf issue) acc) acc,
        g.2 ≠ [] := by
  induction issues with
  | nil => intro acc h; simpa using h
  | cons i t ih =>
    intro acc h
    simp only [List.foldl_cons]
    refine ih _ ?_
    clear ih
    generalize decoratedLabel (displayStatus i) = k
    generalize lineOf i = v
    induction acc with
    | nil =>
      intro g hg
      simp only [insertGrouped, List.mem_singleton] at hg
      subst hg
      simp
    | cons hd tl ihacc =>
      obtain ⟨k0, vs0⟩ := hd
      intro g hg
      simp only [insertGrouped] at hg
      by_cases h1 : k = k0
      · rw [if_pos h1] at hg
        rcases List.mem_cons.mp hg with he | he
        · subst he; simp
        · exact h g (List.mem_cons_of_mem _ he)
      · rw [if_neg h1] at hg
        by_cases h2 : strLt k k0 = true
        · rw [if_pos h2] at hg
          rcases List.mem_cons.mp hg with he | he
          · subst he; simp
          · exact h g he
        · rw [if_neg h2] at hg
          rcases List.mem_cons.mp hg with he | he
          · subst he
            exact h _ (List.mem_cons_self _ _)
          · exact ihacc (fun g' hg' => h g' (List.mem_cons_of_mem _ hg')) g he

theorem values_grouped (issues : List Issue) :
    ∀ g ∈ grouped issues, g.2 ≠ [] := by
  have h := values_foldInsert issues [] (by simp)
  simpa [grouped] using h

theorem provenance_insertGrouped (PK : String → Prop) (PV : String → Prop)
    (k v : String) (hk : PK k) (hv : PV v) :
    ∀ acc, (∀ g ∈ acc, PK g.1 ∧ ∀ w ∈ g.2, PV w) →
      ∀ g ∈ insertGrouped k v acc, PK g.1 ∧ ∀ w ∈ g.2, PV w := by
  intro acc
  induction acc with
  | nil =>
    intro _ g hg
    simp only [insertGrouped, List.mem_singleton] at hg
    subst hg
    refine ⟨hk, ?_⟩
    intro w hw
    rw [List.mem_singleton.mp hw]
    exact hv
  | cons hd tl ih =>
    obtain ⟨k0, vs0⟩ := hd
    intro h g hg
    simp only [insertGrouped] at hg
    by_cases h1 : k = k0
    · rw [if_pos h1] at hg
      rcases List.mem_cons.mp hg with he | he
      · subst he
        refine ⟨(h _ (List.mem_cons_self _ _)).1, ?_⟩
        intro w hw
        rcases List.mem_append.mp hw with hw | hw
        · exact (h _ (List.mem_cons_self _ _)).2 w hw
        · rw [List.mem_singleton.mp hw]
          exact hv
      · exact h g (List.mem_cons_of_mem _ he)
    · rw [if_neg h1] at hg
      by_cases h2 : strLt k k0 = true
      · rw [if_pos h2] at hg
        rcases List.mem_cons.mp hg with he | he
        · subst he
          refine ⟨hk, ?_⟩
          intro w hw
          rw [List.mem_singleton.mp hw]
          exact hv
        · exact h g he
      · rw [if_neg h2] at hg
        rcases List.mem_cons.mp hg with he | he
        · subst he
          exact h _ (List.mem_cons_self _ _)
        · exact ih (fun g' hg' => h g' (List.mem_cons_of_mem _ hg')) g he

theorem provenance_foldInsert (PK : String → Prop) (PV : String → Prop)
    (issues : List Issue) :
    ∀ acc,
      (∀ i ∈ issues, PK (decoratedLabel (displayStatus i)) ∧ PV (lineOf i)) →
      (∀ g ∈ acc, PK g.1 ∧ ∀ w ∈ g.2, PV w) →
      ∀ g ∈ issues.foldl (fun acc issue =>
          insertGrouped (decoratedLabel (displayStatus issue)) (lineOf issue) acc) acc,
        PK g.1 ∧ ∀ w ∈ g.2, PV w := by
  induction issues with
  | nil => intro acc _ h; simpa using h
  | cons i t ih =>
    intro acc hi h
    simp only [List.foldl_cons]
    refine ih _ (fun j hj => hi j (List.mem_cons_of_mem _ hj)) ?_
    exact provenance_insertGrouped PK PV _ _
      (hi i (List.mem_cons_self _ _)).1 (hi i (List.mem_cons_self _ _)).2 acc h

theorem provenance_grouped (PK : String → Prop) (PV : String → Prop)
    (issues : List Issue)
    (hi : ∀ i ∈ issues, PK (decoratedLabel (displayStatus i)) ∧ PV (lineOf i)) :
    ∀ g ∈ grouped issues, PK g.1 ∧ ∀ w ∈ g.2, PV w := by
  have h := provenance_foldInsert PK PV issues [] hi (by simp)
  simpa [grouped] using h

/-! ## C2: decorated labels and lexicographic group order -/

/-- C2: every issue is grouped under the decorated label built from its
display status — the fixed glyph map for "In Progress", "In Review" and
"Closed", the shrug fallback for anything else, prefixed to the starred
status name — and the grouping map's entries are strictly sorted by the
decorated label string, which is the order the groups are emitted in. -/
theorem status_groups_decorated_sorted (issues : List Issue) :
    List.Pairwise (fun a b => strLt a.1 b.1 = true) (grouped issues)
    ∧ (∀ issue ∈ issues,
        lineOf issue
          ∈ groupLines (decoratedLabel (displayStatus issue)) (grouped issues))
    ∧ decoratedLabel "In Progress" = "👩🏻‍💻 *In Progress*"
    ∧ decoratedLabel "In Review" = "👩🏼‍🔬 *In Review*"
    ∧ decoratedLabel "Closed" = "🎉 *Closed*"
    ∧ ∀ s : String, s ≠ "In Progress" → s ≠ "In Review" → s ≠ "Closed" →
        decoratedLabel s = ":shrug: *" ++ s ++ "*" := by
  refine ⟨sortedKeys_grouped issues, ?_, rfl, rfl, rfl, ?_⟩
  · intro issue hmem
    rw [groupLines_grouped]
    exact List.mem_map_of_mem lineOf (List.mem_filter.mpr ⟨hmem, by simp⟩)
  · intro s h1 h2 h3
    simp [decoratedLabel, STATUS_EMOJI, h1, h2, h3]

/-- Witness for C2 on the specification's scenario data: CS-1's line
lands in its decorated group, and an unrecognized status gets the
shrug fallback. -/
theorem status_groups_decorated_sorted_witness :
    lineOf closedIssue
        ∈ groupLines (decoratedLabel (displayStatus closedIssue))
            (grouped [closedIssue, reviewIssue])
    ∧ decoratedLabel "Blocked" = ":shrug: *Blocked*" :=
  ⟨(status_groups_decorated_sorted [closedIssue, reviewIssue]).2.1 closedIssue
      (List.mem_cons_self _ _),
   (status_groups_decorated_sorted []).2.2.2.2.2 "Blocked"
      (by decide) (by decide) (by decide)⟩

/-! ## C4: merge order of the two issue queries -/

/-- C4: the sequence fed to grouping is the closed-issues results
followed by the in-flight results, and the lines stored under any
status-group key are exactly the rendered lines of that concatenated
sequence filtered to the key, in that merge order. -/
theorem merge_order_within_groups (fetch : FetchResults) (dOk : Bool)
    (url : String) (q : String) :
    (debrief (.ok ()) fetch dOk url).1.posts =
      [(url, ⟨joinSep "\n"
          [incidentsResponse (unwrapOrDefault fetch.incidents),
           renderGroups (grouped
             (unwrapOrDefault fetch.closed ++ unwrapOrDefault fetch.inFlight))]⟩)]
    ∧ groupLines q
        (grouped (unwrapOrDefault fetch.closed ++ unwrapOrDefault fetch.inFlight))
      = ((unwrapOrDefault fetch.closed ++ unwrapOrDefault fetch.inFlight).filter
          (fun i => decoratedLabel (displayStatus i) == q)).map lineOf :=
  ⟨rfl, groupLines_grouped q _⟩

/-! ## C10: no empty groups, no header on the issue block -/

/-- C10: every key of the grouping map holds at least one line (a key
exists only because an issue was inserted under it), and when both
issue queries return empty sequences the issue block is the empty
string, so the delivered text ends right after the incident block's
separating newline. -/
theorem label_line_has_members (issues : List Issue)
    (inc : Except FetchError (List Incident)) (dOk : Bool) (url : String) :
    (∀ g ∈ grouped issues, g.2 ≠ [])
    ∧ renderGroups (grouped (([] : List Issue) ++ ([] : List Issue))) = ""
    ∧ (debrief (.ok ()) ⟨inc, .ok [], .ok []⟩ dOk url).1.posts
        = [(url, ⟨incidentsResponse (unwrapOrDefault inc) ++ "\n"⟩)] := by
  refine ⟨values_grouped issues, rfl, ?_⟩
  have h : (debrief (.ok ()) ⟨inc, .ok [], .ok []⟩ dOk url).1.posts
      = [(url, ⟨incidentsResponse (unwrapOrDefault inc) ++ "\n" ++ ""⟩)] := rfl
  rw [h, String.append_empty]

/-- Witness for C10: the group the scenario's closed issue creates is
nonempty. -/
theorem label_line_has_members_witness :
    (("🎉 *Closed*", ["<http://j/CS-1|CS-1> Fix cache"]) : String × List String).2
      ≠ [] :=
  (label_line_has_members [closedIssue] (.ok []) true "u").1
    ("🎉 *Closed*", ["<http://j/CS-1|CS-1> Fix cache"]) (by decide)

/-! ## Splitting and re-parsing lemmas -/

theorem splitNl_of_no_newline (a : List Char) (h : '\n' ∉ a) :
    splitNl a = [a] := by
  induction a with
  | nil => rfl
  | cons c cs ih =>
    have hc : ¬ c = '\n' := fun he => h (he ▸ List.mem_cons_self c cs)
    have hcs : '\n' ∉ cs := fun hm => h (List.mem_cons_of_mem c hm)
    simp only [splitNl, if_neg hc, ih hcs]

theorem splitNl_append_newline (a b : List Char) (h : '\n' ∉ a) :
    splitNl (a ++ '\n' :: b) = a :: splitNl b := by
  induction a with
  | nil => simp [splitNl]
  | cons c cs ih =>
    have hc : ¬ c = '\n' := fun he => h (he ▸ List.mem_cons_self c cs)
    have hcs : '\n' ∉ cs := fun hm => h (List.mem_cons_of_mem c hm)
    simp only [List.cons_append, splitNl, if_neg hc, List.append_eq, ih hcs]

theorem splitNl_joinSep (vs : List String) (r : List Char)
    (hne : vs ≠ []) (hnl : ∀ v ∈ vs, '\n' ∉ v.data) :
    splitNl ((joinSep "\n" vs).data ++ '\n' :: r)
      = vs.map String.data ++ splitNl r := by
  induction vs with
  | nil => exact absurd rfl hne
  | cons a t ih =>
    cases t with
    | nil =>
      simp only [joinSep, List.map_cons, List.map_nil]
      rw [splitNl_append_newline a.data r (hnl a (List.mem_cons_self _ _))]
      simp
    | cons b t2 =>
      have hd : (joinSep "\n" (a :: b :: t2)).data ++ '\n' :: r
          = a.data ++ '\n' :: ((joinSep "\n" (b :: t2)).data ++ '\n' :: r) := by
        simp only [joinSep, String.data_append]
        simp [List.append_assoc]
      rw [hd, splitNl_append_newline _ _ (hnl a (List.mem_cons_self _ _)),
          ih (by simp) (fun v hv => hnl v (List.mem_cons_of_mem _ hv))]
      simp

theorem isIssueLine_ne_empty (v : String) (h : isIssueLine v = true) :
    v ≠ "" := by
  intro he
  subst he
  simp [isIssueLine] at h

theorem parsePairs_issue_lines (vs : List String) :
    ∀ (rest : List String) (k : String), (∀ v ∈ vs, isIssueLine v = true) →
      parsePairs (vs ++ rest) k
        = vs.map (fun v => (k, v)) ++ parsePairs rest k := by
  induction vs with
  | nil => intro rest k _; simp
  | cons v t ih =>
    intro rest k h
    have hv : isIssueLine v = true := h v (List.mem_cons_self _ _)
    simp only [List.cons_append, parsePairs,
      if_neg (isIssueLine_ne_empty v hv), if_pos hv, List.map_cons,
      List.append_eq]
    rw [ih rest k (fun w hw => h w (List.mem_cons_of_mem _ hw))]

theorem parsePairs_groups (gs : List (String × List String)) :
    ∀ cur : String,
      (∀ g ∈ gs, (g.1 ≠ "" ∧ isIssueLine g.1 = false)
        ∧ ∀ v ∈ g.2, isIssueLine v = true) →
      parsePairs ((gs.flatMap fun g => g.1 :: g.2) ++ [""]) cur
        = groupPairs gs := by
  induction gs with
  | nil =>
    intro cur _
    simp [parsePairs, groupPairs]
  | cons g rest ih =>
    intro cur h
    obtain ⟨⟨hne, hlab⟩, hvs⟩ := h g (List.mem_cons_self _ _)
    have hshape : ((g :: rest).flatMap fun g => g.1 :: g.2) ++ [""]
        = g.1 :: (g.2 ++ ((rest.flatMap fun g => g.1 :: g.2) ++ [""])) := by
      simp [List.flatMap_cons, List.append_assoc]
    rw [hshape]
    simp only [parsePairs, if_neg hne, if_neg (by simp [hlab] : ¬ isIssueLine g.1 = true)]
    rw [parsePairs_issue_lines g.2 _ g.1 hvs,
        ih g.1 (fun g' hg' => h g' (List.mem_cons_of_mem _ hg'))]
    simp [groupPairs, List.flatMap_cons]

theorem renderGroups_eq_concat (gs : List (String × List String)) :
    renderGroups gs = concatAll (gs.map blockOf) := by
  unfold renderGroups
  rw [List.foldl_ext
      (fun result g => result ++ g.1 ++ "\n" ++ joinSep "\n" g.2 ++ "\n")
      (fun result g => result ++ blockOf g) ""
      (fun r g _ => by simp [blockOf, String.append_assoc]),
    foldl_append_concatAll blockOf gs "", String.empty_append]

theorem splitNl_concatBlocks (gs : List (String × List String))
    (h : ∀ g ∈ gs, '\n' ∉ g.1.data ∧ g.2 ≠ [] ∧ ∀ v ∈ g.2, '\n' ∉ v.data) :
    splitNl (concatAll (gs.map blockOf)).data
      = (gs.flatMap fun g => g.1.data :: g.2.map String.data) ++ [[]] := by
  induction gs with
  | nil => rfl
  | cons g rest ih =>
    obtain ⟨hk, hne, hv⟩ := h g (List.mem_cons_self _ _)
    have hd : (concatAll ((g :: rest).map blockOf)).data
        = g.1.data ++ '\n' :: ((joinSep "\n" g.2).data
            ++ '\n' :: (concatAll (rest.map blockOf)).data) := by
      simp only [List.map_cons, concatAll, blockOf, String.data_append]
      simp [List.append_assoc]
    rw [hd, splitNl_append_newline _ _ hk,
        splitNl_joinSep g.2 _ hne hv,
        ih (fun g' hg' => h g' (List.mem_cons_of_mem _ hg'))]
    simp [List.flatMap_cons, List.append_assoc]

theorem parseBlock_renderGroups (gs : List (String × List String))
    (h : ∀ g ∈ gs, ('\n' ∉ g.1.data ∧ g.1 ≠ "" ∧ isIssueLine g.1 = false)
        ∧ g.2 ≠ [] ∧ ∀ v ∈ g.2, isIssueLine v = true ∧ '\n' ∉ v.data) :
    parseBlock (renderGroups gs) = groupPairs gs := by
  unfold parseBlock
  rw [renderGroups_eq_concat,
      splitNl_concatBlocks gs (fun g hg => ⟨(h g hg).1.1, (h g hg).2.1,
        fun v hv => ((h g hg).2.2 v hv).2⟩)]
  have hmk : ∀ s : String, String.mk s.data = s := fun _ => rfl
  have hmap : ((gs.flatMap fun g => g.1.data :: g.2.map String.data) ++ [[]]).map
      (fun cs => String.mk cs)
      = (gs.flatMap fun g => g.1 :: g.2) ++ [""] := by
    have hcomp : ((fun cs => String.mk cs) ∘ String.data) = (id : String → String) := by
      funext s
      exact hmk s
    simp [List.map_append, List.map_flatMap, List.map_map, hcomp, hmk]
  rw [hmap]
  exact parsePairs_groups gs ""
    (fun g hg => ⟨⟨(h g hg).1.2.1, (h g hg).1.2.2⟩,
      fun v hv => ((h g hg).2.2 v hv).1⟩)

theorem mem_groupPairs_iff (k l : String) :
    ∀ gs, SortedKeys gs → ((k, l) ∈ groupPairs gs ↔ l ∈ groupLines k gs) := by
  intro gs
  induction gs with
  | nil => intro _; simp [groupPairs, groupLines]
  | cons g rest ih =>
    obtain ⟨k0, vs0⟩ := g
    intro hs
    rw [SortedKeys, List.pairwise_cons] at hs
    obtain ⟨hhead, htail⟩ := hs
    simp only [groupPairs, List.flatMap_cons, List.mem_append, groupLines]
    by_cases hk : k0 = k
    · rw [if_pos hk]
      subst hk
      constructor
      · rintro (hin | hin)
        · rcases List.mem_map.mp hin with ⟨x, hx, he⟩
          have hxl : x = l := congrArg Prod.snd he
          rw [← hxl]
          exact hx
        · exfalso
          rcases List.mem_flatMap.mp hin with ⟨g', hg', hmem⟩
          rcases List.mem_map.mp hmem with ⟨x, _, he⟩
          have h1 : g'.1 = k0 := congrArg Prod.fst he
          exact strLt_ne k0 g'.1 (hhead g' hg') h1.symm
      · intro hl
        exact Or.inl (List.mem_map.mpr ⟨l, hl, rfl⟩)
    · rw [if_neg hk]
      constructor
      · rintro (hin | hin)
        · rcases List.mem_map.mp hin with ⟨x, _, he⟩
          exact absurd (congrArg Prod.fst he) hk
        · exact (ih htail).mp hin
      · intro hl
        exact Or.inr ((ih htail).mpr hl)

/-! ## Shape facts about labels and lines -/

theorem noNl_append (a b : String) :
    '\n' ∉ (a ++ b).data ↔ ('\n' ∉ a.data ∧ '\n' ∉ b.data) := by
  rw [String.data_append]
  simp [List.mem_append, not_or]

theorem noNl_decoratedLabel (s : String) (h : '\n' ∉ s.data) :
    '\n' ∉ (decoratedLabel s).data := by
  unfold decoratedLabel STATUS_EMOJI
  split_ifs <;> simp [noNl_append, h]

theorem decoratedLabel_head (s : String) :
    ∃ c, (decoratedLabel s).data.head? = some c ∧ c ≠ '<' := by
  unfold decoratedLabel STATUS_EMOJI
  split_ifs
  · refine ⟨'👩', ?_, by decide⟩
    have h1 : ("👩🏻‍💻" : String).data.head? = some '👩' := by decide
    simp [String.data_append, List.head?_append, h1, Option.or]
  · refine ⟨'👩', ?_, by decide⟩
    have h1 : ("👩🏼‍🔬" : String).data.head? = some '👩' := by decide
    simp [String.data_append, List.head?_append, h1, Option.or]
  · refine ⟨'🎉', ?_, by decide⟩
    have h1 : ("🎉" : String).data.head? = some '🎉' := by decide
    simp [String.data_append, List.head?_append, h1, Option.or]
  · refine ⟨':', ?_, by decide⟩
    have h1 : (":shrug:" : String).data.head? = some ':' := by decide
    simp [String.data_append, List.head?_append, h1, Option.or]

theorem label_shape (s : String) :
    decoratedLabel s ≠ "" ∧ isIssueLine (decoratedLabel s) = false := by
  obtain ⟨c, hc, hne⟩ := decoratedLabel_head s
  constructor
  · intro he
    rw [he] at hc
    simp at hc
  · unfold isIssueLine
    rw [hc]
    exact decide_eq_false (by simp [hne])

theorem isIssueLine_lineOf (i : Issue) : isIssueLine (lineOf i) = true := by
  have hd : (lineOf i).data.head? = some '<' := by
    unfold lineOf issue_display
    have h1 : ("<" : String).data.head? = some '<' := by decide
    simp [String.data_append, List.head?_append, h1, Option.or]
  unfold isIssueLine
  rw [hd]
  simp

/-! ## C9: render / re-parse round trip -/

/-- C9: rendering the grouped issue block and re-parsing it recovers
exactly the set of (decorated status label, issue line) pairs fed into
grouping, for any closed-issues-first concatenation of inputs whose
statuses and rendered lines are newline-free. -/
theorem render_parse_round_trip (closed inFlight : List Issue)
    (h : ∀ i ∈ closed ++ inFlight,
        '\n' ∉ (displayStatus i).data ∧ '\n' ∉ (lineOf i).data) :
    (parseBlock (renderGroups (grouped (closed ++ inFlight)))).toFinset
      = ((closed ++ inFlight).map fun i =>
          (decoratedLabel (displayStatus i), lineOf i)).toFinset := by
  have hprov := provenance_grouped
      (fun k => '\n' ∉ k.data ∧ k ≠ "" ∧ isIssueLine k = false)
      (fun v => isIssueLine v = true ∧ '\n' ∉ v.data)
      (closed ++ inFlight)
      (fun i hi => ⟨⟨noNl_decoratedLabel _ (h i hi).1,
          (label_shape (displayStatus i)).1, (label_shape (displayStatus i)).2⟩,
        isIssueLine_lineOf i, (h i hi).2⟩)
  rw [parseBlock_renderGroups _
      (fun g hg => ⟨(hprov g hg).1, values_grouped _ g hg, (hprov g hg).2⟩)]
  ext p
  obtain ⟨k, l⟩ := p
  simp only [List.mem_toFinset]
  rw [mem_groupPairs_iff k l _ (sortedKeys_grouped _), groupLines_grouped]
  simp only [List.mem_map, List.mem_filter, beq_iff_eq]
  constructor
  · rintro ⟨i, ⟨hi, hlab⟩, hline⟩
    exact ⟨i, hi, by rw [hlab, hline]⟩
  · rintro ⟨i, hi, he⟩
    have h1 : decoratedLabel (displayStatus i) = k := congrArg Prod.fst he
    have h2 : lineOf i = l := congrArg Prod.snd he
    exact ⟨i, ⟨hi, h1⟩, h2⟩

/-- Witness for C9 on the specification's scenario data. -/
theorem render_parse_round_trip_witness :
    (∀ i ∈ [closedIssue] ++ [reviewIssue],
        '\n' ∉ (displayStatus i).data ∧ '\n' ∉ (lineOf i).data)
    ∧ (parseBlock (renderGroups (grouped ([closedIssue] ++ [reviewIssue])))).toFinset
        = (([closedIssue] ++ [reviewIssue]).map fun i =>
            (decoratedLabel (displayStatus i), lineOf i)).toFinset :=
  ⟨by decide, render_parse_round_trip [closedIssue] [reviewIssue] (by decide)⟩

end Standup
